import Mathlib

/-!
Verification of the rotary-encoder decoding engine.

This file gives a shallow embedding of the decoding strategies of the
rotary-encoder crate: the quadrature threshold counter (quadrature.rs),
the shift-register edge decoder (standard.rs and angular_velocity.rs),
the full-step table strategy (full_step.rs with table/full.rs), the
debounced half-step strategy (debounced.rs with table/half.rs) and the
two velocity estimators (angular_velocity.rs and the historical
RotaryEncoderWithVelocity of lib.rs).  Machine integers are embedded as
Nat or Int with explicit wrapping where the width matters; f32 values
are embedded as exact rationals.
-/

set_option maxRecDepth 10000

namespace RotaryEnc

/-- Direction of rotary encoder rotation, as the Direction enum of lib.rs. -/
inductive Direction where
  | none
  | clockwise
  | anticlockwise
deriving DecidableEq

/-- Quadrature lookup table QUAD_TABLE of quadrature.rs.
Index = (prev_state << 2) | curr_state; value +1 for CW, -1 for CCW, 0 otherwise. -/
def QUAD_TABLE : List Int := [0, 1, -1, 0, -1, 0, 0, 1, 1, 0, 0, -1, 0, -1, 1, 0]

/-- Wrapping i8 arithmetic: normalises an integer into [-128, 127].  This is the
release-mode overflow semantics of the i8 field count of quadrature.rs. -/
def wrap8 (x : Int) : Int := (x + 128) % 256 - 128

/-- The Rust expression count.abs() as u8 under wrapping semantics: the wrapping
absolute value on i8 (which maps -128 to -128) followed by the bit-reinterpreting
cast to u8 (reduction modulo 256 into [0, 255]). -/
def u8abs (c : Int) : Nat := ((wrap8 (if c < 0 then -c else c)) % 256).toNat

/-- State of QuadratureTableMode of quadrature.rs: prev_state holds the lower two
bits of the previous sample, threshold the configured u8 threshold, count the
running i8 sum of deltas. -/
structure QuadratureTableMode where
  prev_state : Nat
  threshold : Nat
  count : Int
deriving DecidableEq

/-- QuadratureTableMode::new of quadrature.rs. -/
def QuadratureTableMode.new (threshold : Nat) : QuadratureTableMode :=
  { prev_state := 0, count := 0, threshold := threshold }

/-- QuadratureTableMode::update of quadrature.rs: computes the 2-bit current
state from the dt and clk levels, accumulates the table delta into count, and
emits a Direction (resetting count) once the absolute count reaches threshold. -/
def QuadratureTableMode.update (s : QuadratureTableMode) (dt clk : Bool) :
    QuadratureTableMode × Direction :=
  let curr := dt.toNat ||| (clk.toNat <<< 1)
  let idx := (s.prev_state <<< 2) ||| curr
  let delta := QUAD_TABLE.getD idx 0
  let count := wrap8 (s.count + delta)
  if s.threshold ≤ u8abs count then
    (⟨curr, s.threshold, 0⟩,
      if 0 < count then Direction.clockwise else Direction.anticlockwise)
  else
    (⟨curr, s.threshold, count⟩, Direction.none)

/-- Drives QuadratureTableMode::update over a list of (dt, clk) samples,
returning the final state and the list of emitted Directions. -/
def runQuad (s : QuadratureTableMode) :
    List (Bool × Bool) → QuadratureTableMode × List Direction
  | [] => (s, [])
  | (dt, clk) :: rest =>
    let r := s.update dt clk
    let rr := runQuad r.1 rest
    (rr.1, r.2 :: rr.2)

/-- The unique clockwise successor of a 2-bit quadrature state: the single
curr with QUAD_TABLE[(prev << 2) | curr] = +1. -/
def cwNextState : Nat → Nat
  | 0 => 1
  | 1 => 3
  | 2 => 0
  | 3 => 2
  | _ => 0

/-- The unique counter-clockwise successor of a 2-bit quadrature state: the
single curr with QUAD_TABLE[(prev << 2) | curr] = -1. -/
def ccwNextState : Nat → Nat
  | 0 => 2
  | 1 => 0
  | 2 => 3
  | 3 => 1
  | _ => 0

/-- Drives QuadratureTableMode::update with n consecutive valid clockwise
pulses: each input sample is the unique +1 successor of the current
prev_state.  From a fresh instance this is the only sequence of valid
same-sign clockwise pulses. -/
def quadCWRun (s : QuadratureTableMode) : Nat → QuadratureTableMode × List Direction
  | 0 => (s, [])
  | n + 1 =>
    let c := cwNextState s.prev_state
    let r := s.update (c &&& 1 == 1) (c &&& 2 == 2)
    let rr := quadCWRun r.1 n
    (rr.1, r.2 :: rr.2)

/-- Drives QuadratureTableMode::update with n consecutive valid
counter-clockwise pulses, mirroring quadCWRun. -/
def quadCCWRun (s : QuadratureTableMode) : Nat → QuadratureTableMode × List Direction
  | 0 => (s, [])
  | n + 1 =>
    let c := ccwNextState s.prev_state
    let r := s.update (c &&& 1 == 1) (c &&& 2 == 2)
    let rr := quadCCWRun r.1 n
    (rr.1, r.2 :: rr.2)

/-- State of StandardMode of standard.rs: the two u8 shift registers of pin
history, initialised by StandardMode::new to [0xFF, 2]. -/
structure StandardMode where
  ps0 : Nat
  ps1 : Nat
deriving DecidableEq

/-- StandardMode::new of standard.rs. -/
def StandardMode.new : StandardMode := ⟨0xFF, 2⟩

/-- The edge-detection block shared verbatim by standard.rs and
angular_velocity.rs: mask both shift registers with PIN_MASK = 0x03 and
report a direction when one line shows the edge pattern PIN_EDGE = 0x02
while the other is steady at 0x00. -/
def edgeDirection (p0 p1 : Nat) : Direction :=
  let a := p0 &&& 0x03
  let b := p1 &&& 0x03
  if a = 0x02 ∧ b = 0x00 then Direction.anticlockwise
  else if b = 0x02 ∧ a = 0x00 then Direction.clockwise
  else Direction.none

/-- StandardMode::update of standard.rs: shifts the new levels into the two u8
registers and reports a direction when one line shows the masked edge pattern
0b10 while the other is steady at 0b00. -/
def StandardMode.update (s : StandardMode) (dt clk : Bool) :
    StandardMode × Direction :=
  let p0 := ((s.ps0 <<< 1) ||| dt.toNat) % 256
  let p1 := ((s.ps1 <<< 1) ||| clk.toNat) % 256
  (⟨p0, p1⟩, edgeDirection p0 p1)

/-- The 2-bit pin state dt << 1 | clk computed by full_step.rs and debounced.rs. -/
def pinState (dt clk : Bool) : Nat := (dt.toNat <<< 1) ||| clk.toNat

/-- Direction extraction of full_step.rs and debounced.rs: the new table state
masked with 0x30 selects DIR_CW = 0x10, DIR_CCW = 0x20 or no direction. -/
def dirOfFlags (ts : Nat) : Direction :=
  if ts &&& 0x30 = 0x10 then Direction.clockwise
  else if ts &&& 0x30 = 0x20 then Direction.anticlockwise
  else Direction.none

/-- STATE_TABLE_FULL_STEPS of table/full.rs with its named constants expanded:
R_START = 0, F_CW_FINAL = 1, F_CW_BEGIN = 2, F_CW_NEXT = 3, F_CCW_BEGIN = 4,
F_CCW_FINAL = 5, F_CCW_NEXT = 6, DIR_CW = 0x10, DIR_CCW = 0x20. -/
def STATE_TABLE_FULL_STEPS : List (List Nat) :=
  [[0, 2, 4, 0],
   [3, 0, 1, 0x10],
   [3, 2, 0, 0],
   [3, 2, 1, 0],
   [6, 0, 4, 0],
   [6, 5, 0, 0x20],
   [6, 5, 4, 0]]

/-- The table-state transition of full_step.rs: the table is indexed with the
current state masked by 0x0F and the 2-bit pin state. -/
def fullStepNext (ts pin : Nat) : Nat :=
  (STATE_TABLE_FULL_STEPS.getD (ts &&& 0x0F) []).getD pin 0

/-- RotaryEncoder::<FullStepMode>::update of full_step.rs on the pure table
state: returns the new table state and the extracted direction. -/
def fullStepUpdate (ts : Nat) (dt clk : Bool) : Nat × Direction :=
  let ts2 := fullStepNext ts (pinState dt clk)
  (ts2, dirOfFlags ts2)

/-- Drives fullStepUpdate over a list of (dt, clk) samples. -/
def runFull (ts : Nat) : List (Bool × Bool) → Nat × List Direction
  | [] => (ts, [])
  | (dt, clk) :: rest =>
    let r := fullStepUpdate ts dt clk
    let rr := runFull r.1 rest
    (rr.1, r.2 :: rr.2)

/-- Table states of FullStepMode reachable from the initial state 0 of
into_fullstep_mode by update calls. -/
inductive FullReach : Nat → Prop where
  | init : FullReach 0
  | step (ts : Nat) (dt clk : Bool) :
      FullReach ts → FullReach (fullStepNext ts (pinState dt clk))

/-- STATE_TABLE_HALF_STEPS of table/half.rs with its named constants expanded:
R_START = 0, H_CCW_BEGIN = 1, H_CW_BEGIN = 2, H_START_M = 3, H_CW_BEGIN_M = 4,
H_CCW_BEGIN_M = 5, DIR_CW = 0x10, DIR_CCW = 0x20. -/
def STATE_TABLE_HALF_STEPS : List (List Nat) :=
  [[3, 2, 1, 0],
   [0x23, 0, 1, 0],
   [0x13, 2, 0, 0],
   [3, 5, 4, 0],
   [3, 3, 4, 0x10],
   [3, 5, 3, 0x20]]

/-- The table-state transition of debounced.rs: the half-step table is indexed
with the current state masked by 0x0F and the 2-bit pin state. -/
def halfStepNext (ts pin : Nat) : Nat :=
  (STATE_TABLE_HALF_STEPS.getD (ts &&& 0x0F) []).getD pin 0

/-- Table states of DebouncedMode reachable from the initial state 0 of
into_debounced_mode: either a half-step table transition or the reset to 0
performed when a direction is accepted. -/
inductive HalfReach : Nat → Prop where
  | init : HalfReach 0
  | step (ts : Nat) (dt clk : Bool) :
      HalfReach ts → HalfReach (halfStepNext ts (pinState dt clk))

/-- State of DebouncedMode of debounced.rs.  The f32 fields decay, decay_factor
and decay_increment are embedded as exact rationals. -/
structure DebouncedMode where
  table_state : Nat
  last_update_millis : Nat
  debounce_duration_millis : Nat
  decay : ℚ
  decay_factor : ℚ
  decay_increment : ℚ

/-- The Rust cast expression (f : f32) as u64 for the debounce window term:
truncation toward zero, with negative values saturating to 0. -/
def floatToU64 (q : ℚ) : Nat := if q ≤ 0 then 0 else q.floor.toNat

/-- The effective debounce window of debounced.rs:
debounce_duration_millis - (debounce_duration_millis as f32 * decay) as u64. -/
def DebouncedMode.window (s : DebouncedMode) : Nat :=
  s.debounce_duration_millis -
    floatToU64 ((s.debounce_duration_millis : ℚ) * s.decay)

/-- RotaryEncoder::<DebouncedMode>::update of debounced.rs: runs the half-step
table, and accepts the raw direction only when it is non-None and the elapsed
time since the last accepted report exceeds the effective debounce window; an
accept bumps the decay (clamped to 1), resets the table state and records the
time; otherwise Direction::None is reported. -/
def DebouncedMode.update (s : DebouncedMode) (dt clk : Bool) (millis : Nat) :
    DebouncedMode × Direction :=
  let ts2 := halfStepNext s.table_state (pinState dt clk)
  let dir := dirOfFlags ts2
  if dir ≠ Direction.none ∧ s.window < millis - s.last_update_millis then
    ({ s with table_state := 0,
              decay := min (s.decay + s.decay_increment) 1,
              last_update_millis := millis }, dir)
  else
    ({ s with table_state := ts2 }, Direction.none)

/-- RotaryEncoder::<DebouncedMode>::tick of debounced.rs: linear decay of the
decay value toward 0, scaled by the sampling period dt. -/
def DebouncedMode.tick (s : DebouncedMode) (dt : ℚ) : DebouncedMode :=
  { s with decay := max (s.decay - s.decay_factor * dt) 0 }

/-- The initial DebouncedMode state built by into_debounced_mode of
debounced.rs, with the default constants of that file. -/
def DebouncedMode.init : DebouncedMode :=
  { table_state := 0, last_update_millis := 0, debounce_duration_millis := 60,
    decay := 0, decay_factor := 2, decay_increment := 1/5 }

/-- One operation on a DebouncedMode session: a periodic tick with sampling
period dt, or an update with pin levels and a millisecond timestamp. -/
inductive DebOp where
  | tick (dt : ℚ)
  | upd (dtPin clkPin : Bool) (millis : Nat)

/-- Drives a DebouncedMode over a list of operations, collecting the Direction
reported by each update call. -/
def runDeb (s : DebouncedMode) : List DebOp → DebouncedMode × List Direction
  | [] => (s, [])
  | DebOp.tick dt :: rest => runDeb (s.tick dt) rest
  | DebOp.upd a b m :: rest =>
    let r := s.update a b m
    let rr := runDeb r.1 rest
    (rr.1, r.2 :: rr.2)

/-- Expresses that every update in the operation list happens at a time t2 with
t ≤ t2 and t2 - t within the effective debounce window of the state current at
that call, and that every tick has a non-negative sampling period. -/
def withinWindow (t : Nat) (s : DebouncedMode) : List DebOp → Prop
  | [] => True
  | DebOp.tick dt :: rest => 0 ≤ dt ∧ withinWindow t (s.tick dt) rest
  | DebOp.upd a b m :: rest =>
      t ≤ m ∧ m - t ≤ s.window ∧ withinWindow t (s.update a b m).1 rest

/-- State of AngularVelocityMode of angular_velocity.rs: the two u8 pin shift
registers, the velocity estimator fields (f32 values as exact rationals) and
the millisecond timestamp previous_time_millis. -/
structure AngularVelocityMode where
  ps0 : Nat
  ps1 : Nat
  velocity : ℚ
  velocity_inc_factor : ℚ
  velocity_dec_factor : ℚ
  velocity_action_ms : Nat
  previous_time_millis : Nat

/-- The initial AngularVelocityMode built by into_angular_velocity_mode of
angular_velocity.rs, with the default constants of that file. -/
def AngularVelocityMode.init : AngularVelocityMode :=
  { ps0 := 0xFF, ps1 := 2, velocity := 0, velocity_inc_factor := 1/5,
    velocity_dec_factor := 1/100, velocity_action_ms := 25,
    previous_time_millis := 0 }

/-- RotaryEncoder::<AngularVelocityMode>::update of angular_velocity.rs:
shift-register edge decoding as in standard.rs; on a non-None direction the
velocity is increased by velocity_inc_factor and clamped to 1.0 when the
elapsed time since previous_time_millis is inside the action window and the
velocity is below 1.0; previous_time_millis is refreshed only on calls whose
decoded direction is None. -/
def AngularVelocityMode.update (s : AngularVelocityMode) (dt clk : Bool)
    (t : Nat) : AngularVelocityMode × Direction :=
  let p0 := ((s.ps0 <<< 1) ||| dt.toNat) % 256
  let p1 := ((s.ps1 <<< 1) ||| clk.toNat) % 256
  let dir := edgeDirection p0 p1
  if dir ≠ Direction.none then
    if t - s.previous_time_millis < s.velocity_action_ms ∧ s.velocity < 1 then
      ({ s with ps0 := p0, ps1 := p1,
                velocity := min (s.velocity + s.velocity_inc_factor) 1 }, dir)
    else
      ({ s with ps0 := p0, ps1 := p1 }, dir)
  else
    ({ s with ps0 := p0, ps1 := p1, previous_time_millis := t }, dir)

/-- RotaryEncoder::<AngularVelocityMode>::decay_velocity of angular_velocity.rs:
subtract velocity_dec_factor and clamp the result at 0.0. -/
def AngularVelocityMode.decay_velocity (s : AngularVelocityMode) :
    AngularVelocityMode :=
  { s with velocity := max (s.velocity - s.velocity_dec_factor) 0 }

/-- Drives AngularVelocityMode::update over a list of (dt, clk, time) calls. -/
def runAV (s : AngularVelocityMode) :
    List (Bool × Bool × Nat) → AngularVelocityMode × List Direction
  | [] => (s, [])
  | (dt, clk, t) :: rest =>
    let r := s.update dt clk t
    let rr := runAV r.1 rest
    (rr.1, r.2 :: rr.2)

/-- The STATES delta table of lib.rs, indexed by the low nibble of the
transition shift register. -/
def STATES : List Int := [0, -1, 1, 0, 1, 0, 0, -1, -1, 0, 0, 1, 0, 1, -1, 0]

/-- State of the historical RotaryEncoder of lib.rs: i8 position accumulator,
sensitivity (2 or 4), u8 transition shift register and last direction. -/
structure RotaryEncoder where
  pos_calc : Int
  sensitivity : Int
  transition : Nat
  direction : Direction

/-- RotaryEncoder::new of lib.rs (default sensitivity 2). -/
def RotaryEncoder.new : RotaryEncoder := ⟨0, 2, 0, Direction.none⟩

/-- RotaryEncoder::update of lib.rs: shifts the 2-bit sample into the
transition register, accumulates the STATES delta into pos_calc and reports a
direction exactly when pos_calc reaches plus or minus the sensitivity. -/
def RotaryEncoder.update (e : RotaryEncoder) (dt clk : Bool) : RotaryEncoder :=
  let current := (dt.toNat <<< 1) ||| clk.toNat
  let transition := ((e.transition <<< 2) ||| current) % 256
  let idx := transition &&& 0x0F
  let pos := wrap8 (e.pos_calc + STATES.getD idx 0)
  if pos = e.sensitivity ∨ pos = -e.sensitivity then
    { e with transition := transition, pos_calc := 0,
             direction := if pos = e.sensitivity then Direction.clockwise
                          else Direction.anticlockwise }
  else
    { e with transition := transition, pos_calc := pos,
             direction := Direction.none }

/-- State of the historical RotaryEncoderWithVelocity of lib.rs.  Timestamps
are embedded as integer milliseconds relative to the epoch 2000-01-01 used to
initialise previous_time. -/
structure RotaryEncoderWithVelocity where
  inner : RotaryEncoder
  velocity : ℚ
  velocity_inc_factor : ℚ
  velocity_dec_factor : ℚ
  velocity_action_ms : Int
  previous_time : Int

/-- RotaryEncoderWithVelocity::new of lib.rs with explicit configuration
values (the Option arguments resolved). -/
def RotaryEncoderWithVelocity.new (inc dec : ℚ) (action : Int) :
    RotaryEncoderWithVelocity :=
  { inner := RotaryEncoder.new, velocity := 0, velocity_inc_factor := inc,
    velocity_dec_factor := dec, velocity_action_ms := action,
    previous_time := 0 }

/-- RotaryEncoderWithVelocity::update of lib.rs: on a detected direction inside
the action window with velocity below 1.0, the velocity is increased by
velocity_inc_factor with no upper clamp; previous_time is refreshed only on
calls whose direction is None. -/
def RotaryEncoderWithVelocity.update (v : RotaryEncoderWithVelocity)
    (dt clk : Bool) (t : Int) : RotaryEncoderWithVelocity :=
  let inner := v.inner.update dt clk
  if inner.direction ≠ Direction.none then
    if t - v.previous_time < v.velocity_action_ms ∧ v.velocity < 1 then
      { v with inner := inner,
               velocity := v.velocity + v.velocity_inc_factor }
    else
      { v with inner := inner }
  else
    { v with inner := inner, previous_time := t }

/-- RotaryEncoderWithVelocity::decay_velocity of lib.rs: subtract
velocity_dec_factor and clamp the result at -1.0. -/
def RotaryEncoderWithVelocity.decay_velocity (v : RotaryEncoderWithVelocity) :
    RotaryEncoderWithVelocity :=
  { v with velocity := max (v.velocity - v.velocity_dec_factor) (-1) }

/-- RotaryEncoderWithVelocity::velocity of lib.rs: the read-side maps negative
internal values to 0 but does not bound the value from above. -/
def RotaryEncoderWithVelocity.velocityRead (v : RotaryEncoderWithVelocity) : ℚ :=
  if v.velocity < 0 then 0 else v.velocity

/-- Drives RotaryEncoderWithVelocity::update over a list of (dt, clk, time)
calls. -/
def runOldVel (v : RotaryEncoderWithVelocity) :
    List (Bool × Bool × Int) → RotaryEncoderWithVelocity
  | [] => v
  | (dt, clk, t) :: rest => runOldVel (v.update dt clk t) rest

/-- Pin samples encoding one full clockwise detent for the full-step table in
the order 01, 00, 10, 11 of the 2-bit pin state dt << 1 | clk, with each
sample repeated an arbitrary positive number of times. -/
def cwDetentSeq (n1 n2 n3 n4 : Nat) : List (Bool × Bool) :=
  List.replicate n1 (false, true) ++ List.replicate n2 (false, false) ++
    List.replicate n3 (true, false) ++
    (true, true) :: List.replicate (n4 - 1) (true, true)

/-- Pin samples encoding one full counter-clockwise detent for the full-step
table in the order 10, 00, 01, 11 of the 2-bit pin state dt << 1 | clk, with
each sample repeated an arbitrary positive number of times. -/
def ccwDetentSeq (n1 n2 n3 n4 : Nat) : List (Bool × Bool) :=
  List.replicate n1 (true, false) ++ List.replicate n2 (false, false) ++
    List.replicate n3 (false, true) ++
    (true, true) :: List.replicate (n4 - 1) (true, true)

/-- The input scenario refuting claim C3: pin levels and millisecond
timestamps for five AngularVelocityMode::update calls. -/
def avSeq : List (Bool × Bool × Nat) :=
  [(false, true, 0), (false, false, 10), (false, false, 40),
   (false, true, 41), (false, false, 50)]

/-- AngularVelocityMode with the increment factor set to 1/2 through
set_velocity_inc_factor (an f32-exact value), otherwise the defaults. -/
def avTest : AngularVelocityMode :=
  { AngularVelocityMode.init with velocity_inc_factor := 1/2 }

/-- The input scenario exhibiting the missing velocity clamp of lib.rs: pin
levels and timestamps for four RotaryEncoderWithVelocity::update calls. -/
def c1Seq : List (Bool × Bool × Int) :=
  [(false, true, 0), (true, true, 1), (true, false, 2), (false, false, 3)]

/-- Invariant of QuadratureTableMode maintained by update: the count is a
valid i8 value and its u8-cast absolute value is below the threshold. -/
def QuadInv (s : QuadratureTableMode) : Prop :=
  -128 ≤ s.count ∧ s.count ≤ 127 ∧ u8abs s.count < s.threshold

/-! ## Theorems -/

/-- Helper: wrap8 always lands in the i8 range. -/
theorem wrap8_mem (x : Int) : -128 ≤ wrap8 x ∧ wrap8 x ≤ 127 := by
  unfold wrap8
  have h1 : 0 ≤ (x + 128) % 256 := Int.emod_nonneg _ (by decide)
  have h2 : (x + 128) % 256 < 256 := Int.emod_lt_of_pos _ (by decide)
  omega

/-- Helper: wrap8 is the identity on the i8 range. -/
theorem wrap8_eq_self (x : Int) (h1 : -128 ≤ x) (h2 : x ≤ 127) : wrap8 x = x := by
  unfold wrap8
  rw [Int.emod_eq_of_lt (by omega) (by omega)]
  omega

/-- Helper: on integers of magnitude at most 127, u8abs is the natural
absolute value. -/
theorem u8abs_eq (c : Int) (h1 : -127 ≤ c) (h2 : c ≤ 127) : u8abs c = c.natAbs := by
  unfold u8abs
  rcases lt_or_ge c 0 with hc | hc
  · rw [if_pos hc, wrap8_eq_self _ (by omega) (by omega),
      Int.emod_eq_of_lt (by omega) (by omega)]
    omega
  · rw [if_neg (by omega), wrap8_eq_self _ (by omega) (by omega),
      Int.emod_eq_of_lt (by omega) (by omega)]
    omega

/-- Helper: QuadratureTableMode::update preserves the QuadInv invariant. -/
theorem quadInv_update (s : QuadratureTableMode) (hinv : QuadInv s)
    (dt clk : Bool) : QuadInv (s.update dt clk).1 := by
  obtain ⟨hlo, hhi, habs⟩ := hinv
  have hth : 0 < s.threshold := Nat.lt_of_le_of_lt (Nat.zero_le _) habs
  have hw := wrap8_mem (s.count + QUAD_TABLE.getD ((s.prev_state <<< 2) |||
    (dt.toNat ||| (clk.toNat <<< 1))) 0)
  simp only [QuadratureTableMode.update, QuadInv]
  split
  · dsimp only
    refine ⟨by decide, by decide, ?_⟩
    rw [u8abs_eq 0 (by decide) (by decide)]
    simpa using hth
  · rename_i hcond
    dsimp only
    exact ⟨hw.1, hw.2, by omega⟩

/-- Helper: running any input sequence from a fresh QuadratureTableMode with a
positive threshold keeps the QuadInv invariant. -/
theorem quadInv_runQuad (th : Nat) (hth : 1 ≤ th)
    (inputs : List (Bool × Bool)) :
    QuadInv (runQuad (QuadratureTableMode.new th) inputs).1 := by
  have hbase : QuadInv (QuadratureTableMode.new th) := by
    unfold QuadInv QuadratureTableMode.new
    dsimp only
    refine ⟨by decide, by decide, ?_⟩
    rw [u8abs_eq 0 (by decide) (by decide)]
    simpa using hth
  -- generalize over the starting state
  suffices h : ∀ (s : QuadratureTableMode), QuadInv s →
      QuadInv (runQuad s inputs).1 from h _ hbase
  induction inputs with
  | nil => intro s hs; exact hs
  | cons a rest ih =>
    intro s hs
    obtain ⟨dt, clk⟩ := a
    exact ih _ (quadInv_update s hs dt clk)

/-- Helper: from any state satisfying QuadInv, an update along an invalid
transition (table delta 0) emits None, keeps count unchanged and still
updates prev_state to the new 2-bit sample. -/
theorem quad_invalid_transition (s : QuadratureTableMode) (hinv : QuadInv s)
    (dt clk : Bool)
    (hdelta : QUAD_TABLE.getD ((s.prev_state <<< 2) |||
      (dt.toNat ||| (clk.toNat <<< 1))) 0 = 0) :
    (s.update dt clk).2 = Direction.none ∧
    (s.update dt clk).1.count = s.count ∧
    (s.update dt clk).1.prev_state = dt.toNat ||| (clk.toNat <<< 1) := by
  obtain ⟨hlo, hhi, habs⟩ := hinv
  have hc : wrap8 (s.count + QUAD_TABLE.getD ((s.prev_state <<< 2) |||
      (dt.toNat ||| (clk.toNat <<< 1))) 0) = s.count := by
    rw [hdelta, Int.add_zero, wrap8_eq_self _ hlo hhi]
  simp only [QuadratureTableMode.update, hc]
  rw [if_neg (by omega)]
  exact ⟨rfl, rfl, rfl⟩

/-- C8: with threshold 1, a single valid clockwise pulse (00 to 01) from the
fresh state emits Clockwise immediately; and from every state reachable from
a fresh instance with positive threshold, an update along an invalid
transition (table delta 0, such as 00 to 11) emits None and leaves the
running counter unchanged while prev_state is still updated to the new 2-bit
sample. -/
theorem c8_quad_threshold_one :
    ((QuadratureTableMode.new 1).update true false).2 = Direction.clockwise ∧
    (∀ (th : Nat) (inputs : List (Bool × Bool)) (dt clk : Bool), 1 ≤ th →
      QUAD_TABLE.getD
        (((runQuad (QuadratureTableMode.new th) inputs).1.prev_state <<< 2) |||
          (dt.toNat ||| (clk.toNat <<< 1))) 0 = 0 →
      ((runQuad (QuadratureTableMode.new th) inputs).1.update dt clk).2 =
        Direction.none ∧
      ((runQuad (QuadratureTableMode.new th) inputs).1.update dt clk).1.count =
        (runQuad (QuadratureTableMode.new th) inputs).1.count ∧
      ((runQuad (QuadratureTableMode.new th) inputs).1.update dt clk).1.prev_state =
        dt.toNat ||| (clk.toNat <<< 1)) := by
  constructor
  · decide
  · intro th inputs dt clk hth hdelta
    exact quad_invalid_transition _ (quadInv_runQuad th hth inputs) dt clk hdelta

/-- Witness for C8: the invalid transition 00 to 11 from the fresh state with
threshold 1 emits None, keeps the counter and updates prev_state. -/
theorem c8_witness :
    ((runQuad (QuadratureTableMode.new 1) []).1.update true true).2 =
      Direction.none ∧
    ((runQuad (QuadratureTableMode.new 1) []).1.update true true).1.count =
      (runQuad (QuadratureTableMode.new 1) []).1.count ∧
    ((runQuad (QuadratureTableMode.new 1) []).1.update true true).1.prev_state =
      Bool.toNat true ||| (Bool.toNat true <<< 1) :=
  c8_quad_threshold_one.2 1 [] true true (by decide) (by decide)

/-- C3 amended: on each AngularVelocityMode::update call whose decoded
direction is non-None, the velocity increases by velocity_inc_factor clamped
to 1.0 exactly when the elapsed time since the most recent update call that
decoded None (tracked in previous_time_millis, which is refreshed only on
None-decoding calls, not on detected events) is below the action window and
the velocity is below 1.0; otherwise the velocity is unchanged on that call.
On None-decoding calls the velocity is unchanged and the reference time is
refreshed. -/
theorem c3_velocity_update_amended (s : AngularVelocityMode) (dt clk : Bool)
    (t : Nat) (_hmono : s.previous_time_millis ≤ t) :
    ((s.update dt clk t).2 ≠ Direction.none →
      (s.update dt clk t).1.previous_time_millis = s.previous_time_millis ∧
      (s.update dt clk t).1.velocity =
        (if t - s.previous_time_millis < s.velocity_action_ms ∧ s.velocity < 1
          then min (s.velocity + s.velocity_inc_factor) 1
          else s.velocity)) ∧
    ((s.update dt clk t).2 = Direction.none →
      (s.update dt clk t).1.velocity = s.velocity ∧
      (s.update dt clk t).1.previous_time_millis = t) := by
  simp only [AngularVelocityMode.update]
  split
  · rename_i hdir
    split
    · rename_i hcond
      exact ⟨fun _ => ⟨rfl, rfl⟩, fun hc => absurd hc hdir⟩
    · rename_i hcond
      exact ⟨fun _ => ⟨rfl, rfl⟩, fun hc => absurd hc hdir⟩
  · rename_i hdir
    exact ⟨fun hne => absurd (not_not.mp hdir) hne, fun _ => ⟨rfl, rfl⟩⟩

/-- C3 counterexample: in the five-call scenario avSeq on avTest (increment
factor 1/2), the second call at t = 10 is a detected Clockwise event and the
fifth call at t = 50 is the next detected event, so the elapsed time since
the previous detected event is 40, at least the 25 ms action window; the
claim then requires the velocity to stay at 1/2 on that call, but the code
raises it to 1 (previous_time_millis was refreshed to 41 by the intervening
None-decoding call, and 50 - 41 is inside the window). -/
theorem c3_counterexample :
    (runAV avTest avSeq).2 =
      [Direction.none, Direction.clockwise, Direction.none, Direction.none,
        Direction.clockwise] ∧
    (runAV avTest (avSeq.take 4)).1.velocity = 1/2 ∧
    (runAV avTest avSeq).1.velocity = 1 ∧
    25 ≤ 50 - 10 := by
  norm_num +decide [runAV, avSeq, avTest, AngularVelocityMode.update,
    AngularVelocityMode.init, edgeDirection, min_def, List.take]

/-- Witness for C3: the amended per-call law evaluated on the first update of
a fresh AngularVelocityMode at time 0. -/
theorem c3_witness :
    ((AngularVelocityMode.init.update false true 0).2 ≠ Direction.none →
      (AngularVelocityMode.init.update false true 0).1.previous_time_millis =
        AngularVelocityMode.init.previous_time_millis ∧
      (AngularVelocityMode.init.update false true 0).1.velocity =
        (if 0 - AngularVelocityMode.init.previous_time_millis <
              AngularVelocityMode.init.velocity_action_ms ∧
            AngularVelocityMode.init.velocity < 1
          then min (AngularVelocityMode.init.velocity +
              AngularVelocityMode.init.velocity_inc_factor) 1
          else AngularVelocityMode.init.velocity)) ∧
    ((AngularVelocityMode.init.update false true 0).2 = Direction.none →
      (AngularVelocityMode.init.update false true 0).1.velocity =
        AngularVelocityMode.init.velocity ∧
      (AngularVelocityMode.init.update false true 0).1.previous_time_millis = 0) :=
  c3_velocity_update_amended AngularVelocityMode.init false true 0 (Nat.le_refl 0)

/-- C1: the historical RotaryEncoderWithVelocity of lib.rs violates the [0,1]
velocity invariant: its update has no upper clamp, so constructed with the
f32-exact increment factor 0.75 and driven through c1Seq (two detected
Anticlockwise steps inside the 25 ms action window, interleaved with
None-decoding calls), the value observable through velocity() is 3/2 > 1,
contradicting the documented bound of velocity(). -/
theorem c1_velocity_exceeds_one :
    (runOldVel (RotaryEncoderWithVelocity.new (3/4) (1/100) 25)
      c1Seq).velocityRead = 3/2 ∧
    (1 : ℚ) < (runOldVel (RotaryEncoderWithVelocity.new (3/4) (1/100) 25)
      c1Seq).velocityRead := by
  norm_num +decide [runOldVel, c1Seq, RotaryEncoderWithVelocity.new,
    RotaryEncoderWithVelocity.update, RotaryEncoderWithVelocity.velocityRead,
    RotaryEncoder.new, RotaryEncoder.update, STATES, wrap8]

/-- Helper: the bit decomposition used by quadCWRun reconstructs the clockwise
successor sample. -/
theorem cw_sample_curr : ∀ p, p < 4 →
    (Bool.toNat (cwNextState p &&& 1 == 1) |||
      Bool.toNat (cwNextState p &&& 2 == 2) <<< 1) = cwNextState p := by decide

/-- Helper: each clockwise successor sample scores table delta +1. -/
theorem cw_delta : ∀ p, p < 4 →
    QUAD_TABLE.getD ((p <<< 2) ||| cwNextState p) 0 = 1 := by decide

/-- Helper: the clockwise successor stays in the 2-bit range. -/
theorem cwNextState_lt : ∀ p, p < 4 → cwNextState p < 4 := by decide

/-- Helper: the bit decomposition used by quadCCWRun reconstructs the
counter-clockwise successor sample. -/
theorem ccw_sample_curr : ∀ p, p < 4 →
    (Bool.toNat (ccwNextState p &&& 1 == 1) |||
      Bool.toNat (ccwNextState p &&& 2 == 2) <<< 1) = ccwNextState p := by decide

/-- Helper: each counter-clockwise successor sample scores table delta -1. -/
theorem ccw_delta : ∀ p, p < 4 →
    QUAD_TABLE.getD ((p <<< 2) ||| ccwNextState p) 0 = -1 := by decide

/-- Helper: the counter-clockwise successor stays in the 2-bit range. -/
theorem ccwNextState_lt : ∀ p, p < 4 → ccwNextState p < 4 := by decide

/-- Helper: a clockwise pulse below the threshold increments the counter and
emits None. -/
theorem quadCW_update_noemit (p th : Nat) (c : Int) (hp : p < 4)
    (hlo : 0 ≤ c) (hhi : c ≤ 126) (hlt : (c + 1).natAbs < th) :
    QuadratureTableMode.update ⟨p, th, c⟩ (cwNextState p &&& 1 == 1)
      (cwNextState p &&& 2 == 2) =
      (⟨cwNextState p, th, c + 1⟩, Direction.none) := by
  have hw : wrap8 (c + 1) = c + 1 := wrap8_eq_self _ (by omega) (by omega)
  have ha : u8abs (c + 1) = (c + 1).natAbs := u8abs_eq _ (by omega) (by omega)
  simp only [QuadratureTableMode.update, cw_sample_curr p hp, cw_delta p hp, hw, ha]
  rw [if_neg (by omega)]

/-- Helper: a clockwise pulse reaching the threshold emits Clockwise and
resets the counter. -/
theorem quadCW_update_emit (p th : Nat) (c : Int) (hp : p < 4)
    (hlo : 0 ≤ c) (hhi : c ≤ 126) (hge : th ≤ (c + 1).natAbs) :
    QuadratureTableMode.update ⟨p, th, c⟩ (cwNextState p &&& 1 == 1)
      (cwNextState p &&& 2 == 2) =
      (⟨cwNextState p, th, 0⟩, Direction.clockwise) := by
  have hw : wrap8 (c + 1) = c + 1 := wrap8_eq_self _ (by omega) (by omega)
  have ha : u8abs (c + 1) = (c + 1).natAbs := u8abs_eq _ (by omega) (by omega)
  simp only [QuadratureTableMode.update, cw_sample_curr p hp, cw_delta p hp, hw, ha]
  rw [if_pos (by omega), if_pos (by omega)]

/-- Helper: a counter-clockwise pulse below the threshold decrements the
counter and emits None. -/
theorem quadCCW_update_noemit (p th : Nat) (c : Int) (hp : p < 4)
    (hlo : -126 ≤ c) (hhi : c ≤ 0) (hlt : (c + -1).natAbs < th) :
    QuadratureTableMode.update ⟨p, th, c⟩ (ccwNextState p &&& 1 == 1)
      (ccwNextState p &&& 2 == 2) =
      (⟨ccwNextState p, th, c + -1⟩, Direction.none) := by
  have hw : wrap8 (c + -1) = c + -1 := wrap8_eq_self _ (by omega) (by omega)
  have ha : u8abs (c + -1) = (c + -1).natAbs := u8abs_eq _ (by omega) (by omega)
  simp only [QuadratureTableMode.update, ccw_sample_curr p hp, ccw_delta p hp, hw, ha]
  rw [if_neg (by omega)]

/-- Helper: a counter-clockwise pulse reaching the threshold emits
Anticlockwise and resets the counter. -/
theorem quadCCW_update_emit (p th : Nat) (c : Int) (hp : p < 4)
    (hlo : -126 ≤ c) (hhi : c ≤ 0) (hge : th ≤ (c + -1).natAbs) :
    QuadratureTableMode.update ⟨p, th, c⟩ (ccwNextState p &&& 1 == 1)
      (ccwNextState p &&& 2 == 2) =
      (⟨ccwNextState p, th, 0⟩, Direction.anticlockwise) := by
  have hw : wrap8 (c + -1) = c + -1 := wrap8_eq_self _ (by omega) (by omega)
  have ha : u8abs (c + -1) = (c + -1).natAbs := u8abs_eq _ (by omega) (by omega)
  simp only [QuadratureTableMode.update, ccw_sample_curr p hp, ccw_delta p hp, hw, ha]
  rw [if_pos (by omega), if_neg (by omega)]

/-- Helper: quadCWRun distributes over addition of pulse counts. -/
theorem quadCWRun_add (s : QuadratureTableMode) (m n : Nat) :
    quadCWRun s (m + n) =
      ((quadCWRun (quadCWRun s m).1 n).1,
        (quadCWRun s m).2 ++ (quadCWRun (quadCWRun s m).1 n).2) := by
  induction m generalizing s with
  | zero => simp [quadCWRun]
  | succ i ih => simp [quadCWRun, Nat.succ_add, ih]

/-- Helper: quadCCWRun distributes over addition of pulse counts. -/
theorem quadCCWRun_add (s : QuadratureTableMode) (m n : Nat) :
    quadCCWRun s (m + n) =
      ((quadCCWRun (quadCCWRun s m).1 n).1,
        (quadCCWRun s m).2 ++ (quadCCWRun (quadCCWRun s m).1 n).2) := by
  induction m generalizing s with
  | zero => simp [quadCCWRun]
  | succ i ih => simp [quadCCWRun, Nat.succ_add, ih]

/-- Helper: unfolding of a single clockwise pulse. -/
theorem quadCWRun_one (s : QuadratureTableMode) :
    quadCWRun s 1 =
      ((s.update (cwNextState s.prev_state &&& 1 == 1)
          (cwNextState s.prev_state &&& 2 == 2)).1,
        [(s.update (cwNextState s.prev_state &&& 1 == 1)
          (cwNextState s.prev_state &&& 2 == 2)).2]) := rfl

/-- Helper: unfolding of a single counter-clockwise pulse. -/
theorem quadCCWRun_one (s : QuadratureTableMode) :
    quadCCWRun s 1 =
      ((s.update (ccwNextState s.prev_state &&& 1 == 1)
          (ccwNextState s.prev_state &&& 2 == 2)).1,
        [(s.update (ccwNextState s.prev_state &&& 1 == 1)
          (ccwNextState s.prev_state &&& 2 == 2)).2]) := rfl

/-- Helper: as long as the accumulated count stays below the threshold, a run
of clockwise pulses emits only None and counts every pulse. -/
theorem quadCW_silent (k : Nat) (hk : k ≤ 127) :
    ∀ (m j p : Nat), p < 4 → j + m < k →
      ∃ p2, p2 < 4 ∧
        quadCWRun ⟨p, k, ((j : Nat) : Int)⟩ m =
          (⟨p2, k, (((j + m : Nat)) : Int)⟩, List.replicate m Direction.none) := by
  intro m
  induction m with
  | zero =>
    intro j p hp _
    exact ⟨p, hp, by simp [quadCWRun]⟩
  | succ n ih =>
    intro j p hp hjm
    have hstep := quadCW_update_noemit p k ((j : Nat) : Int) hp
      (by omega) (by omega) (by omega)
    obtain ⟨p2, hp2, hrun⟩ := ih (j + 1) (cwNextState p) (cwNextState_lt p hp)
      (by omega)
    have hcast : ((j : Nat) : Int) + 1 = (((j + 1 : Nat)) : Int) := by
      push_cast
      ring
    have hadd : j + 1 + n = j + (n + 1) := by omega
    refine ⟨p2, hp2, ?_⟩
    simp only [quadCWRun, hstep, hcast, hrun, hadd, List.replicate_succ]

/-- Helper: as long as the accumulated magnitude stays below the threshold, a
run of counter-clockwise pulses emits only None and counts every pulse
negatively. -/
theorem quadCCW_silent (k : Nat) (hk : k ≤ 127) :
    ∀ (m j p : Nat), p < 4 → j + m < k →
      ∃ p2, p2 < 4 ∧
        quadCCWRun ⟨p, k, -((j : Nat) : Int)⟩ m =
          (⟨p2, k, -(((j + m : Nat)) : Int)⟩, List.replicate m Direction.none) := by
  intro m
  induction m with
  | zero =>
    intro j p hp _
    exact ⟨p, hp, by simp [quadCCWRun]⟩
  | succ n ih =>
    intro j p hp hjm
    have hstep := quadCCW_update_noemit p k (-((j : Nat) : Int)) hp
      (by omega) (by omega) (by omega)
    obtain ⟨p2, hp2, hrun⟩ := ih (j + 1) (ccwNextState p) (ccwNextState_lt p hp)
      (by omega)
    have hcast : -((j : Nat) : Int) + -1 = -(((j + 1 : Nat)) : Int) := by
      push_cast
      ring
    have hadd : j + 1 + n = j + (n + 1) := by omega
    refine ⟨p2, hp2, ?_⟩
    simp only [quadCCWRun, hstep, hcast, hrun, hadd, List.replicate_succ]

/-- C4 amended: for the ThresholdCounter with threshold k, 2 ≤ k ≤ 127 (the
running counter is an i8, so thresholds above 127 can never be reached),
driving the unique sequence of consecutive valid same-sign pulses from a
fresh instance requires exactly k pulses before a non-None direction is
produced: over k+1 pulses the outputs are k-1 None values, then the matching
direction, then None again, and immediately after the non-None result the
internal counter is 0.  The final conjunct shows that from each 2-bit state
the valid +1 (resp. -1) successor sample is unique, so these runs cover every
sequence of valid same-sign pulses. -/
theorem c4_threshold_amended (k : Nat) (hk2 : 2 ≤ k) (hk127 : k ≤ 127) :
    (quadCWRun (QuadratureTableMode.new k) (k + 1)).2 =
      List.replicate (k - 1) Direction.none ++
        [Direction.clockwise, Direction.none] ∧
    (quadCWRun (QuadratureTableMode.new k) k).1.count = 0 ∧
    (quadCCWRun (QuadratureTableMode.new k) (k + 1)).2 =
      List.replicate (k - 1) Direction.none ++
        [Direction.anticlockwise, Direction.none] ∧
    (quadCCWRun (QuadratureTableMode.new k) k).1.count = 0 ∧
    (∀ p, p < 4 → ∀ c, c < 4 →
      (QUAD_TABLE.getD ((p <<< 2) ||| c) 0 = 1 ↔ c = cwNextState p) ∧
      (QUAD_TABLE.getD ((p <<< 2) ||| c) 0 = -1 ↔ c = ccwNextState p)) := by
  obtain ⟨m, rfl⟩ : ∃ m, k = m + 1 + 1 := ⟨k - 2, by omega⟩
  have hsub : m + 1 + 1 - 1 = m + 1 := by omega
  have hnewCW : QuadratureTableMode.new (m + 1 + 1) =
      ⟨0, m + 1 + 1, ((0 : Nat) : Int)⟩ := rfl
  have hnewCCW : QuadratureTableMode.new (m + 1 + 1) =
      ⟨0, m + 1 + 1, -((0 : Nat) : Int)⟩ := by
    simp [QuadratureTableMode.new]
  obtain ⟨p2, hp2, hrun1⟩ :=
    quadCW_silent (m + 1 + 1) (by omega) (m + 1) 0 0 (by decide) (by omega)
  simp only [Nat.zero_add] at hrun1
  have hone1 : quadCWRun ⟨p2, m + 1 + 1, (((m + 1 : Nat)) : Int)⟩ 1 =
      (⟨cwNextState p2, m + 1 + 1, 0⟩, [Direction.clockwise]) := by
    rw [quadCWRun_one]
    dsimp only
    rw [quadCW_update_emit p2 (m + 1 + 1) _ hp2 (by omega) (by omega) (by omega)]
  have hone2 : quadCWRun ⟨cwNextState p2, m + 1 + 1, (0 : Int)⟩ 1 =
      (⟨cwNextState (cwNextState p2), m + 1 + 1, 0 + 1⟩, [Direction.none]) := by
    rw [quadCWRun_one]
    dsimp only
    rw [quadCW_update_noemit (cwNextState p2) (m + 1 + 1) 0
      (cwNextState_lt p2 hp2) (by omega) (by omega) (by omega)]
  obtain ⟨q2, hq2, hrun2⟩ :=
    quadCCW_silent (m + 1 + 1) (by omega) (m + 1) 0 0 (by decide) (by omega)
  simp only [Nat.zero_add] at hrun2
  have hone3 : quadCCWRun ⟨q2, m + 1 + 1, -(((m + 1 : Nat)) : Int)⟩ 1 =
      (⟨ccwNextState q2, m + 1 + 1, 0⟩, [Direction.anticlockwise]) := by
    rw [quadCCWRun_one]
    dsimp only
    rw [quadCCW_update_emit q2 (m + 1 + 1) _ hq2 (by omega) (by omega) (by omega)]
  have hone4 : quadCCWRun ⟨ccwNextState q2, m + 1 + 1, -((0 : Nat) : Int)⟩ 1 =
      (⟨ccwNextState (ccwNextState q2), m + 1 + 1, -((0 : Nat) : Int) + -1⟩,
        [Direction.none]) := by
    rw [quadCCWRun_one]
    dsimp only
    rw [quadCCW_update_noemit (ccwNextState q2) (m + 1 + 1) _
      (ccwNextState_lt q2 hq2) (by omega) (by omega) (by omega)]
  refine ⟨?_, ?_, ?_, ?_, by decide⟩
  · rw [hsub, hnewCW, quadCWRun_add, quadCWRun_add, hrun1]
    dsimp only
    rw [hone1]
    dsimp only
    rw [hone2]
    simp
  · rw [hnewCW, quadCWRun_add, hrun1]
    dsimp only
    rw [hone1]
  · rw [hsub, hnewCCW, quadCCWRun_add, quadCCWRun_add, hrun2]
    dsimp only
    rw [hone3]
    dsimp only
    rw [show (0 : Int) = -((0 : Nat) : Int) from by simp, hone4]
    simp
  · rw [hnewCCW, quadCCWRun_add, hrun2]
    dsimp only
    rw [hone3]

/-- C4 counterexample: with threshold 129 the counter, an i8, wraps before the
threshold can be reached: 129 consecutive valid clockwise pulses from a fresh
instance all return None, although the claim requires the 129th pulse to
produce a non-None direction. -/
theorem c4_counterexample :
    (quadCWRun (QuadratureTableMode.new 129) 129).2 =
      List.replicate 129 Direction.none := by decide

/-- Witness for C4: the amended threshold law at k = 2. -/
theorem c4_witness :
    (quadCWRun (QuadratureTableMode.new 2) (2 + 1)).2 =
      List.replicate (2 - 1) Direction.none ++
        [Direction.clockwise, Direction.none] ∧
    (quadCWRun (QuadratureTableMode.new 2) 2).1.count = 0 ∧
    (quadCCWRun (QuadratureTableMode.new 2) (2 + 1)).2 =
      List.replicate (2 - 1) Direction.none ++
        [Direction.anticlockwise, Direction.none] ∧
    (quadCCWRun (QuadratureTableMode.new 2) 2).1.count = 0 ∧
    (∀ p, p < 4 → ∀ c, c < 4 →
      (QUAD_TABLE.getD ((p <<< 2) ||| c) 0 = 1 ↔ c = cwNextState p) ∧
      (QUAD_TABLE.getD ((p <<< 2) ||| c) 0 = -1 ↔ c = ccwNextState p)) :=
  c4_threshold_amended 2 (by decide) (by decide)

/-- C10: with threshold 0, every update of QuadratureTableMode returns a
non-None direction, and repeated updates with the unchanged fresh sample 00
(delta 0, counter stuck at 0) return Anticlockwise on every call, because the
u8 absolute value of the counter always reaches a threshold of 0 and a
non-positive counter maps to Anticlockwise. -/
theorem c10_threshold_zero :
    (∀ (s : QuadratureTableMode) (dt clk : Bool), s.threshold = 0 →
      (s.update dt clk).2 ≠ Direction.none) ∧
    (∀ n, (runQuad (QuadratureTableMode.new 0)
        (List.replicate n (false, false))).2 =
      List.replicate n Direction.anticlockwise) := by
  constructor
  · intro s dt clk h
    simp only [QuadratureTableMode.update, h]
    rw [if_pos (Nat.zero_le _)]
    split <;> simp
  · intro n
    have hstep : (QuadratureTableMode.new 0).update false false =
        (QuadratureTableMode.new 0, Direction.anticlockwise) := by decide
    induction n with
    | zero => simp [runQuad]
    | succ k ih => simp [List.replicate_succ, runQuad, hstep, ih]

/-- Witness for C10: a threshold-0 instance emits a non-None direction on an
unchanged sample. -/
theorem c10_witness :
    ((QuadratureTableMode.new 0).update false false).2 ≠ Direction.none :=
  c10_threshold_zero.1 (QuadratureTableMode.new 0) false false rfl

/-- Helper: a nested getD lookup in a table of rows satisfies any property that
holds of the default 0 and of every entry of the table. -/
theorem getD_getD_bound (t : List (List Nat)) (P : Nat → Prop) (h0 : P 0)
    (hall : ∀ r ∈ t, ∀ x ∈ r, P x) (m p : Nat) : P ((t.getD m []).getD p 0) := by
  rcases Nat.lt_or_ge m t.length with hm | hm
  · have hrow : t.getD m [] ∈ t := by
      rw [List.getD_eq_getElem t [] hm]
      exact List.getElem_mem hm
    rcases Nat.lt_or_ge p (t.getD m []).length with hp | hp
    · rw [List.getD_eq_getElem _ 0 hp]
      exact hall _ hrow _ (List.getElem_mem hp)
    · rw [List.getD_eq_default _ 0 hp]
      exact h0
  · rw [List.getD_eq_default t [] hm, List.getD_nil]
    exact h0

/-- Helper: every value produced by the full-step table transition has a low
nibble below 7, the number of rows of STATE_TABLE_FULL_STEPS. -/
theorem fullStepNext_masked_lt (ts pin : Nat) : fullStepNext ts pin &&& 0x0F < 7 :=
  getD_getD_bound STATE_TABLE_FULL_STEPS (fun x => x &&& 0x0F < 7)
    (by decide) (by decide) (ts &&& 0x0F) pin

/-- Helper: every value produced by the half-step table transition has a low
nibble below 6, the number of rows of STATE_TABLE_HALF_STEPS. -/
theorem halfStepNext_masked_lt (ts pin : Nat) : halfStepNext ts pin &&& 0x0F < 6 :=
  getD_getD_bound STATE_TABLE_HALF_STEPS (fun x => x &&& 0x0F < 6)
    (by decide) (by decide) (ts &&& 0x0F) pin

/-- C6: the masked table state is always a valid row index for the table-based
strategies, so the lookups of full_step.rs and debounced.rs never go out of
bounds: every FullStepMode table state reachable from the initial state 0 has
a low nibble below 7, every DebouncedMode table state reachable from 0 has a
low nibble below 6, and DebouncedMode::update keeps the table state within the
reachable set (it either applies the half-step table or resets to 0), so every
input produces a defined Direction with no fatal error condition. -/
theorem c6_table_index_safe :
    (∀ ts, FullReach ts → ts &&& 0x0F < 7) ∧
    (∀ ts, HalfReach ts → ts &&& 0x0F < 6) ∧
    (∀ (s : DebouncedMode) (dt clk : Bool) (m : Nat), HalfReach s.table_state →
      HalfReach ((s.update dt clk m).1.table_state)) := by
  refine ⟨?_, ?_, ?_⟩
  · intro ts h
    induction h with
    | init => decide
    | step ts dt clk _ => exact fullStepNext_masked_lt ts (pinState dt clk)
  · intro ts h
    induction h with
    | init => decide
    | step ts dt clk _ => exact halfStepNext_masked_lt ts (pinState dt clk)
  · intro s dt clk m h
    simp only [DebouncedMode.update]
    split
    · exact HalfReach.init
    · exact HalfReach.step s.table_state dt clk h

/-- Witness for C6: the bounds and the closure property evaluated on concrete
reachable states. -/
theorem c6_witness :
    fullStepNext 0 (pinState false true) &&& 0x0F < 7 ∧
    halfStepNext 0 (pinState false true) &&& 0x0F < 6 ∧
    HalfReach ((DebouncedMode.init.update false true 5).1.table_state) :=
  ⟨c6_table_index_safe.1 _ (FullReach.step 0 false true FullReach.init),
   c6_table_index_safe.2.1 _ (HalfReach.step 0 false true HalfReach.init),
   c6_table_index_safe.2.2 DebouncedMode.init false true 5 HalfReach.init⟩

/-- Helper: runFull distributes over list append. -/
theorem runFull_append (ts : Nat) (l1 l2 : List (Bool × Bool)) :
    runFull ts (l1 ++ l2) =
      ((runFull (runFull ts l1).1 l2).1,
        (runFull ts l1).2 ++ (runFull (runFull ts l1).1 l2).2) := by
  induction l1 generalizing ts with
  | nil => simp [runFull]
  | cons a rest ih =>
    obtain ⟨dt, clk⟩ := a
    simp [runFull, ih]

/-- Helper: a table state that maps to itself under a sample, emitting no
direction, absorbs any number of repetitions of that sample. -/
theorem runFull_rep_loop (a : Bool × Bool) (s : Nat)
    (h : fullStepUpdate s a.1 a.2 = (s, Direction.none)) :
    ∀ m, runFull s (List.replicate m a) = (s, List.replicate m Direction.none) := by
  intro m
  obtain ⟨dt, clk⟩ := a
  induction m with
  | zero => simp [runFull]
  | succ n ih => simp [List.replicate_succ, runFull, h, ih]

/-- Helper: a silent transition into a self-absorbing state turns a positive
number of repetitions of one sample into that state with all-None output. -/
theorem runFull_rep_enter (a : Bool × Bool) (s s2 : Nat)
    (h1 : fullStepUpdate s a.1 a.2 = (s2, Direction.none))
    (h2 : fullStepUpdate s2 a.1 a.2 = (s2, Direction.none)) :
    ∀ m, 1 ≤ m →
      runFull s (List.replicate m a) = (s2, List.replicate m Direction.none) := by
  intro m hm
  obtain ⟨n, rfl⟩ : ∃ n, m = n + 1 := ⟨m - 1, by omega⟩
  obtain ⟨dt, clk⟩ := a
  simp [List.replicate_succ, runFull, h1, runFull_rep_loop (dt, clk) s2 h2 n]

/-- Helper: output-only version of runFull_rep_enter that also covers zero
repetitions. -/
theorem runFull_rep_outputs_none (a : Bool × Bool) (s s2 : Nat)
    (h1 : fullStepUpdate s a.1 a.2 = (s2, Direction.none))
    (h2 : fullStepUpdate s2 a.1 a.2 = (s2, Direction.none)) :
    ∀ m, (runFull s (List.replicate m a)).2 = List.replicate m Direction.none := by
  intro m
  cases m with
  | zero => simp [runFull]
  | succ n =>
    rw [runFull_rep_enter a s s2 h1 h2 (n + 1) (by omega)]

/-- Helper: the output of the full-step machine over one stuttered detent:
three silent self-absorbing blocks, then a block whose first sample emits d
and whose repetitions are silent. -/
theorem runFull_detent (a1 a2 a3 a4 : Bool × Bool) (s0 s1 s2 s3 s4 s5 : Nat)
    (d : Direction)
    (h1 : fullStepUpdate s0 a1.1 a1.2 = (s1, Direction.none))
    (h1l : fullStepUpdate s1 a1.1 a1.2 = (s1, Direction.none))
    (h2 : fullStepUpdate s1 a2.1 a2.2 = (s2, Direction.none))
    (h2l : fullStepUpdate s2 a2.1 a2.2 = (s2, Direction.none))
    (h3 : fullStepUpdate s2 a3.1 a3.2 = (s3, Direction.none))
    (h3l : fullStepUpdate s3 a3.1 a3.2 = (s3, Direction.none))
    (h4 : fullStepUpdate s3 a4.1 a4.2 = (s4, d))
    (h5 : fullStepUpdate s4 a4.1 a4.2 = (s5, Direction.none))
    (h5l : fullStepUpdate s5 a4.1 a4.2 = (s5, Direction.none))
    (n1 n2 n3 n4 : Nat) (hn1 : 1 ≤ n1) (hn2 : 1 ≤ n2) (hn3 : 1 ≤ n3) :
    (runFull s0 (List.replicate n1 a1 ++ List.replicate n2 a2 ++
        List.replicate n3 a3 ++ a4 :: List.replicate n4 a4)).2 =
      List.replicate (n1 + n2 + n3) Direction.none ++
        d :: List.replicate n4 Direction.none := by
  obtain ⟨dt4, clk4⟩ := a4
  dsimp only at h4 h5 h5l
  have hassoc : List.replicate n1 a1 ++ List.replicate n2 a2 ++
      List.replicate n3 a3 ++ (dt4, clk4) :: List.replicate n4 (dt4, clk4) =
      List.replicate n1 a1 ++ (List.replicate n2 a2 ++
        (List.replicate n3 a3 ++ (dt4, clk4) :: List.replicate n4 (dt4, clk4))) := by
    simp [List.append_assoc]
  rw [hassoc]
  rw [runFull_append, runFull_rep_enter a1 s0 s1 h1 h1l n1 hn1]
  dsimp only
  rw [runFull_append, runFull_rep_enter a2 s1 s2 h2 h2l n2 hn2]
  dsimp only
  rw [runFull_append, runFull_rep_enter a3 s2 s3 h3 h3l n3 hn3]
  dsimp only
  simp only [runFull, h4]
  rw [runFull_rep_outputs_none (dt4, clk4) s4 s5 h5 h5l n4]
  rw [List.replicate_add (n1 + n2) n3, List.replicate_add n1 n2,
    List.append_assoc, List.append_assoc]

/-- C2 amended: the claimed canonical order 00-01-11-10-00 does not traverse
the full-step table; the detent that the full-step strategy recognises from
its start state is the pin order 01, 00, 10, 11 (of the pin state
dt << 1 | clk) for clockwise and 10, 00, 01, 11 for counter-clockwise.  Over
such a sequence, with each sample repeated arbitrarily often, update emits
exactly one non-None direction, matching the rotation sense. -/
theorem c2_detent_amended (n1 n2 n3 n4 : Nat)
    (hn1 : 1 ≤ n1) (hn2 : 1 ≤ n2) (hn3 : 1 ≤ n3) (_hn4 : 1 ≤ n4) :
    (runFull 0 (cwDetentSeq n1 n2 n3 n4)).2 =
      List.replicate (n1 + n2 + n3) Direction.none ++
        Direction.clockwise :: List.replicate (n4 - 1) Direction.none ∧
    (runFull 0 (ccwDetentSeq n1 n2 n3 n4)).2 =
      List.replicate (n1 + n2 + n3) Direction.none ++
        Direction.anticlockwise :: List.replicate (n4 - 1) Direction.none := by
  constructor
  · unfold cwDetentSeq
    exact runFull_detent (false, true) (false, false) (true, false) (true, true)
      0 2 3 1 0x10 0 Direction.clockwise
      (by decide) (by decide) (by decide) (by decide) (by decide) (by decide)
      (by decide) (by decide) (by decide) n1 n2 n3 (n4 - 1) hn1 hn2 hn3
  · unfold ccwDetentSeq
    exact runFull_detent (true, false) (false, false) (false, true) (true, true)
      0 4 6 5 0x20 0 Direction.anticlockwise
      (by decide) (by decide) (by decide) (by decide) (by decide) (by decide)
      (by decide) (by decide) (by decide) n1 n2 n3 (n4 - 1) hn1 hn2 hn3

/-- C2 counterexample: driving the full-step strategy from its start state
with the canonical order 00, 01, 11, 10, 00 of the claim emits zero non-None
directions, not exactly one; the same holds under the mirrored reading of the
sample bits. -/
theorem c2_counterexample :
    ((runFull 0 [(false, false), (false, true), (true, true), (true, false),
        (false, false)]).2.countP (fun d => d != Direction.none) = 0) ∧
    ((runFull 0 [(false, false), (true, false), (true, true), (false, true),
        (false, false)]).2.countP (fun d => d != Direction.none) = 0) := by
  decide

/-- Witness for C2: the amended detent theorem at one repetition per sample. -/
theorem c2_witness :
    (runFull 0 (cwDetentSeq 1 1 1 1)).2 =
      List.replicate (1 + 1 + 1) Direction.none ++
        Direction.clockwise :: List.replicate (1 - 1) Direction.none ∧
    (runFull 0 (ccwDetentSeq 1 1 1 1)).2 =
      List.replicate (1 + 1 + 1) Direction.none ++
        Direction.anticlockwise :: List.replicate (1 - 1) Direction.none :=
  c2_detent_amended 1 1 1 1 (by decide) (by decide) (by decide) (by decide)

/-- C5: the DebouncedMode strategy never reports two non-None directions
inside the same debounce window.  After an accepted report at time t (so
last_update_millis = t), every later update whose elapsed time from t does
not exceed the effective window (debounce_duration_millis reduced by the
current decay, as computed at that call) returns None, for any interleaving
of tick calls with non-negative sampling periods and any number of raw
half-step table hits, as long as the decay stays in [0,1] (guaranteed here by
a non-negative decay_factor). -/
theorem c5_debounce_window (ops : List DebOp) :
    ∀ (s : DebouncedMode) (t : Nat), s.last_update_millis = t →
      0 ≤ s.decay → s.decay ≤ 1 → 0 ≤ s.decay_factor →
      withinWindow t s ops →
      ∀ d ∈ (runDeb s ops).2, d = Direction.none := by
  induction ops with
  | nil =>
    intro s t _ _ _ _ _ d hd
    simp [runDeb] at hd
  | cons op rest ih =>
    intro s t hlast hd0 hd1 hdf hww d hd
    cases op with
    | tick dt =>
      obtain ⟨hdt, hww2⟩ := hww
      simp only [runDeb] at hd
      refine ih (s.tick dt) t ?_ ?_ ?_ ?_ hww2 d hd
      · simpa [DebouncedMode.tick] using hlast
      · simp only [DebouncedMode.tick]
        exact le_max_right _ _
      · have hmul : 0 ≤ s.decay_factor * dt := mul_nonneg hdf hdt
        have h1 : s.decay - s.decay_factor * dt ≤ 1 := by linarith
        simpa [DebouncedMode.tick] using max_le h1 (by norm_num : (0 : ℚ) ≤ 1)
      · simpa [DebouncedMode.tick] using hdf
    | upd a b mlt =>
      obtain ⟨htm, hwin, hww2⟩ := hww
      have hnc : ¬(dirOfFlags (halfStepNext s.table_state (pinState a b)) ≠
          Direction.none ∧ s.window < mlt - s.last_update_millis) := by
        rintro ⟨_, hgt⟩
        rw [hlast] at hgt
        omega
      have hsup : s.update a b mlt =
          ({ s with table_state := halfStepNext s.table_state (pinState a b) },
            Direction.none) := by
        simp only [DebouncedMode.update]
        rw [if_neg hnc]
      rw [hsup] at hww2
      simp only [runDeb, hsup] at hd
      rcases List.mem_cons.mp hd with hdeq | hdmem
      · exact hdeq
      · exact ih { s with table_state := halfStepNext s.table_state (pinState a b) }
          t hlast hd0 hd1 hdf hww2 d hdmem

/-- Witness for C5: three update calls inside the 60 ms default window after
the initial accept time 0, the third of which scores a raw half-step table
hit; all are suppressed to None. -/
theorem c5_witness :
    (runDeb DebouncedMode.init
      [DebOp.upd false false 1, DebOp.upd false true 2,
        DebOp.upd true true 3]).2 =
      [Direction.none, Direction.none, Direction.none] := by
  have h := c5_debounce_window
    [DebOp.upd false false 1, DebOp.upd false true 2, DebOp.upd true true 3]
    DebouncedMode.init 0 rfl (by norm_num [DebouncedMode.init])
    (by norm_num [DebouncedMode.init]) (by norm_num [DebouncedMode.init])
    (by norm_num +decide [withinWindow, DebouncedMode.update, DebouncedMode.window,
      DebouncedMode.init, halfStepNext, dirOfFlags, pinState, floatToU64,
      STATE_TABLE_HALF_STEPS])
  have hlen : (runDeb DebouncedMode.init
      [DebOp.upd false false 1, DebOp.upd false true 2,
        DebOp.upd true true 3]).2.length = 3 := by
    simp [runDeb]
  rw [show [Direction.none, Direction.none, Direction.none] =
    List.replicate 3 Direction.none from rfl]
  exact List.eq_replicate_iff.mpr ⟨hlen, h⟩

/-- C7: QuadratureTableMode::new(2) driven with the samples (dt=1,clk=0),
(dt=1,clk=1), (dt=0,clk=1) yields the outputs [None, Clockwise, None]:
two clockwise pulses cross the threshold of 2 and the counter then resets. -/
theorem c7_quad_scenario :
    (runQuad (QuadratureTableMode.new 2)
      [(true, false), (true, true), (false, true)]).2 =
      [Direction.none, Direction.clockwise, Direction.none] := by
  decide

/-- C9: a freshly constructed StandardMode has pin_state [0xFF, 2], and its very
first update with dt=false and clk=false already returns Anticlockwise: the
stale DT history masks to the edge pattern 0b10 while CLK masks to 0b00,
although no edge has occurred on the physical lines. -/
theorem c9_standard_first_update :
    StandardMode.new = ⟨0xFF, 2⟩ ∧
    (StandardMode.new.update false false).2 = Direction.anticlockwise := by
  decide

end RotaryEnc
